import Mathlib

/-!
Verification of the FHE16 confidential-payroll core (LatticA-Salary).

This file shallowly embeds the JavaScript/TypeScript/Solidity sources that
the claims refer to:

* `src/lib/fhe16/crypto.js` — ciphertext validation, CID generation, and
  the binary (de)serialization codec, embedded over `List Int` entries and
  `List Nat` byte buffers (a byte is a `Nat`; the int32 coercion performed
  by `Int32Array.from` is made explicit as reduction modulo `2^32` into the
  signed range).
* `src/lib/fhe16/fhe16.js` and the executor in
  `src/frontend/lib/confidential.ts` — the FFI binding layer is embedded
  symbolically: since the native `libFHE16.so` engine is not part of the
  repository sources, each JS wrapper is modelled as a free-term
  constructor recording exactly which native primitive it invokes.
* `src/unnamed` CERC20 contract — `registerCiphertext` size checks.
* The cryptographic engine itself (encryption, decryption, the bootstrap
  gate) is absent from the sources and is modelled from the specification
  where a claim needs it; those definitions say so in their doc comments.

`Date.now()` is modelled as an explicit `now : Int` parameter.
-/

namespace LatticA

/-- Number of 32-bit words in an FHE16 ciphertext:
`16 + 1040*32 = 33296` (crypto.js line 37, confidential.ts line 1016). -/
def N_total : Nat := 16 + 1040 * 32

/-- A ciphertext object as handled by `crypto.js`: an `encrypted_data`
array of (integer-valued) JS numbers, a `scheme` string and a numeric
`timestamp`. -/
structure Ciphertext where
  encrypted_data : List Int
  scheme : String
  timestamp : Int
deriving DecidableEq, Repr

/-- JS `ToInt32` on an integer-valued number: reduce modulo `2^32` into
the signed range `[-2^31, 2^31)`.  This is the coercion `Int32Array.from`
applies to every element. -/
def toInt32 (x : Int) : Int := (x + 2 ^ 31) % 2 ^ 32 - 2 ^ 31

/-- `validateCiphertext` (crypto.js lines 34–42): structural checks.
The JS `!ct.timestamp` test rejects a zero timestamp, hence `≠ 0` here. -/
def validateCiphertext (ct : Ciphertext) : Bool :=
  ct.encrypted_data.length == 33296 &&
  ct.scheme == "FHE16_0.0.1v" &&
  ct.timestamp != 0

/-- Little-endian byte encoding of one element of an `Int32Array` buffer:
the element is first coerced by `ToInt32`, then its 4 two's-complement
bytes are emitted. -/
def int32ToBytesLE (x : Int) : List Nat :=
  let n := (x % 2 ^ 32).toNat
  [n % 256, n / 256 % 256, n / 65536 % 256, n / 16777216 % 256]

/-- Reading one signed 32-bit word from 4 little-endian bytes
(`Int32Array` view over a buffer). -/
def bytesToInt32LE (b0 b1 b2 b3 : Nat) : Int :=
  toInt32 ((b0 : Int) + 256 * b1 + 65536 * b2 + 16777216 * b3)

/-- The byte image of an `encrypted_data` array under
`Buffer.from(Int32Array.from(data).buffer)`. -/
def serializeData (data : List Int) : List Nat :=
  (data.map int32ToBytesLE).flatten

/-- Decode a byte buffer as an `Int32Array` (4 bytes per word,
little-endian); a trailing fragment shorter than 4 bytes is dropped, as
an `Int32Array` view would do. -/
def decodeInt32s : List Nat → List Int
  | b0 :: b1 :: b2 :: b3 :: rest => bytesToInt32LE b0 b1 b2 b3 :: decodeInt32s rest
  | _ => []

/-- `serializeCiphertext` (crypto.js lines 49–56): validate, then emit the
little-endian int32 buffer.  A thrown `Error` is an `Except.error`. -/
def serializeCiphertext (ct : Ciphertext) : Except String (List Nat) :=
  if validateCiphertext ct then
    Except.ok (serializeData ct.encrypted_data)
  else
    Except.error "Invalid ciphertext"

/-- `deserializeCiphertext` (crypto.js lines 63–79).  The input is an
`Option` to model a missing (`null`/`undefined`) buffer; `now` stands for
`Date.now()`. -/
def deserializeCiphertext (buffer : Option (List Nat)) (now : Int) :
    Except String Ciphertext :=
  match buffer with
  | none => Except.error "Invalid buffer size for FHE16 ciphertext"
  | some bs =>
    if bs.length ≠ 33296 * 4 then
      Except.error "Invalid buffer size for FHE16 ciphertext"
    else
      Except.ok { encrypted_data := decodeInt32s bs
                  scheme := "FHE16_0.0.1v"
                  timestamp := now }

/-- `createZeroCiphertext` (crypto.js lines 106–112). -/
def createZeroCiphertext (now : Int) : Ciphertext :=
  { encrypted_data := List.replicate 33296 0
    scheme := "FHE16_0.0.1v"
    timestamp := now }

/-- A structurally valid ciphertext whose first entry, `2^31`, lies just
outside the signed 32-bit range; `validateCiphertext` accepts it because
it checks no entry ranges. -/
def overflowCt : Ciphertext :=
  { encrypted_data := (2 ^ 31 : Int) :: List.replicate 33295 0
    scheme := "FHE16_0.0.1v"
    timestamp := 1 }

/-- One lowercase hex digit. -/
def hexDigit (n : Nat) : Char :=
  if n < 10 then Char.ofNat (48 + n) else Char.ofNat (87 + n)

/-- Lowercase hex string of a byte list (`buffer.toString('hex')`). -/
def hexOfBytes (bs : List Nat) : String :=
  String.mk (bs.flatMap fun b => [hexDigit (b / 16), hexDigit (b % 16)])

/-- `generateCID` (crypto.js lines 13–27), parameterized by the hash
function `h` standing for Node's `crypto` SHA-256 (external to the
repository): hash the little-endian int32 buffer of `encrypted_data` and
prefix `0x`. -/
def generateCIDWith (h : List Nat → List Nat) (ct : Ciphertext) : String :=
  "0x" ++ hexOfBytes (h (serializeData ct.encrypted_data))

/- ### CERC20 contract (`registerCiphertext`) -/

/-- On-chain ciphertext size cap enforced by `CERC20.registerCiphertext`
(`require(encryptedData.length <= 200000)`). -/
def maxCiphertextBytes : Nat := 200000

/-- The part of the CERC20 storage that `registerCiphertext` touches: the
set of CIDs already present in the `ciphertexts` mapping. -/
structure CERC20State where
  registered : List Nat
deriving DecidableEq, Repr

/-- `CERC20.registerCiphertext(cid, encryptedData)`: the four `require`
checks, in source order, then storage of the blob under the CID.  A
failed `require` is an `Except.error` carrying the revert string. -/
def registerCiphertext (st : CERC20State) (cid : Nat) (encryptedData : List Nat) :
    Except String CERC20State :=
  if cid = 0 then Except.error "CERC20: invalid CID"
  else if cid ∈ st.registered then Except.error "CERC20: CID already exists"
  else if encryptedData.length = 0 then Except.error "CERC20: empty ciphertext"
  else if maxCiphertextBytes < encryptedData.length then
    Except.error "CERC20: ciphertext too large"
  else Except.ok { registered := cid :: st.registered }

/- ### Executor-side conversion (`confidential.ts`) -/

/-- `convertJSONToInt32Ptr` (confidential.ts lines 1013–1043): reject a
missing array or one whose length is not `N_total`; otherwise write every
entry with `writeInt32LE`, which itself throws `ERR_OUT_OF_RANGE` on a
value outside the signed 32-bit range.  The successful result is the
int32 content written into the buffer. -/
def convertJSONToInt32Ptr (ciphertextArray : Option (List Int)) :
    Except String (List Int) :=
  match ciphertextArray with
  | none => Except.error "Invalid ciphertext length: expected 33296, got 0"
  | some arr =>
    if arr.length ≠ 33296 then
      Except.error ("Invalid ciphertext length: expected 33296, got " ++
        toString arr.length)
    else if arr.all (fun x => decide (-2 ^ 31 ≤ x ∧ x < 2 ^ 31)) then
      Except.ok arr
    else
      Except.error "ERR_OUT_OF_RANGE"

/- ### Symbolic model of the fhe16.js FFI binding layer

The homomorphic engine lives in `libFHE16.so`, which is not part of the
repository sources; what `src/lib/fhe16/fhe16.js` does is bind each JS
method to one specific native symbol.  We therefore model ciphertext
values as free terms that record exactly which native primitive each JS
wrapper invokes, which is the level at which the subtraction-path claims
are stated. -/

/-- A ciphertext-valued expression: `input i` is the `i`-th input pointer
handed to the executor; every other constructor is one native FHE16
primitive call. -/
inductive CtExpr where
  | input (i : Nat)
  | add (a b : CtExpr)
  | add3 (a b c : CtExpr)
  | sub (a b : CtExpr)
  | neg (a : CtExpr)
  | ge (a b : CtExpr)
  | gt (a b : CtExpr)
  | select (c a b : CtExpr)
  | smull (a b : CtExpr)
  | smullConstI32 (a : CtExpr) (k : Int)
deriving DecidableEq, Repr

/-- `FHE16.add` (fhe16.js line 283): dispatches to native `FHE16_ADD`. -/
def fheAdd (a b : CtExpr) : CtExpr := CtExpr.add a b

/-- `FHE16.sub` (fhe16.js line 285): dispatches to native `FHE16_SUB`
directly — not to `FHE16_NEG` + `FHE16_ADD`. -/
def fheSub (a b : CtExpr) : CtExpr := CtExpr.sub a b

/-- `FHE16.neg` (fhe16.js line 321): dispatches to native `FHE16_NEG`. -/
def fheNeg (a : CtExpr) : CtExpr := CtExpr.neg a

/-- `FHE16.ge` (fhe16.js line 290): dispatches to native `FHE16_GE`. -/
def fheGe (a b : CtExpr) : CtExpr := CtExpr.ge a b

/-- `FHE16.select` (fhe16.js line 299): dispatches to native `FHE16_SELECT`. -/
def fheSelect (c a b : CtExpr) : CtExpr := CtExpr.select c a b

/-- `FHE16.smullConst_i32` (fhe16.js line 308). -/
def fheSmullConstI32 (a : CtExpr) (k : Int) : CtExpr := CtExpr.smullConstI32 a k

/-- The 2-input `dynamic` withdraw path of `executeUniversalFHEComputation`
(confidential.ts lines 855–864): `ge`, then the commented `NEG`+`ADD`
workaround in place of `SUB`, then `select`. -/
def dynamicWithdraw (balance amount : CtExpr) : CtExpr :=
  let check := fheGe balance amount
  let negAmount := fheNeg amount
  let subtracted := fheAdd balance negAmount
  fheSelect check subtracted balance

/-- The `case 'sub'` step of `executeUniversalFHEComputation`
(confidential.ts lines 884–889): a direct `FHE16.sub` call. -/
def stepSub (a b : CtExpr) : CtExpr := fheSub a b

/-- Whether an expression contains any native `FHE16_SUB` call. -/
def usesSubNode : CtExpr → Bool
  | CtExpr.input _ => false
  | CtExpr.add a b => usesSubNode a || usesSubNode b
  | CtExpr.add3 a b c => usesSubNode a || usesSubNode b || usesSubNode c
  | CtExpr.sub _ _ => true
  | CtExpr.neg a => usesSubNode a
  | CtExpr.ge a b => usesSubNode a || usesSubNode b
  | CtExpr.gt a b => usesSubNode a || usesSubNode b
  | CtExpr.select c a b => usesSubNode c || usesSubNode a || usesSubNode b
  | CtExpr.smull a b => usesSubNode a || usesSubNode b
  | CtExpr.smullConstI32 a _ => usesSubNode a

/- ### Spec-modelled engine: initialization gate -/

/-- Error taxonomy of spec §7. -/
inductive FheError where
  | notInitialized
  | malformedCiphertext
  | invalidParameterSet
  | decryptionOutOfRange
deriving DecidableEq, Repr

/-- Modelled from the spec: the native FHE16 engine (`libFHE16.so`) is
absent from the sources; per §3 (BootParam) and §5, its observable
process-wide state relevant to the bootstrap gate is whether the global
bootstrap table has been loaded. -/
structure EngineState where
  bootLoaded : Bool
deriving DecidableEq, Repr

/-- Modelled from the spec: process start, before any
`loadBootParam`/`bootparamLoadFileGlobal` call — the table is not
loaded. -/
def initialEngineState : EngineState := { bootLoaded := false }

/-- Modelled from the spec: `loadBootParam` populates the global
bootstrap table (§4.1); afterwards it is loaded. -/
def loadBootParam (_st : EngineState) : EngineState := { bootLoaded := true }

/-- Modelled from the spec: a bootstrapped operation such as `smull`
"all require the global bootstrap table to be loaded or they fail with
`NotInitialized`" (§4.4); on a loaded table it performs the native
multiplication, recorded symbolically. -/
def smullOp (st : EngineState) (a b : CtExpr) : Except FheError CtExpr :=
  if st.bootLoaded then Except.ok (CtExpr.smull a b)
  else Except.error FheError.notInitialized

/- ### Spec-modelled engine: encryption and decryption

Modelled from the spec: the integer encoding layer (§4.2) and the LWE
ciphertext structure (§3) of the absent native engine.  A 32-bit integer
is bit-decomposed (two's complement) into 32 LWE samples over the
observed modulus `q = 163603459`; each sample is a mask vector plus a
body `⟨mask, sk⟩ + e + bit·⌊q/2⌋ (mod q)`; decryption recovers each bit
by a threshold decision on the centered phase and reassembles the signed
integer. -/

/-- Observed ciphertext modulus (spec §9: `q = Q = 163603459`). -/
def q : Int := 163603459

/-- Plaintext scaling for one bit: `⌊q/2⌋`. -/
def halfQ : Int := q / 2

/-- Decoding threshold: `⌊q/4⌋`. -/
def quarterQ : Int := q / 4

/-- One LWE sample: mask vector and body scalar. -/
structure LWE where
  mask : List Int
  body : Int
deriving DecidableEq, Repr

/-- Inner product of mask and secret key. -/
def dot (a s : List Int) : Int := (List.zipWith (· * ·) a s).sum

/-- Modelled from the spec: encrypt one bit `b` under secret key `sk`
with mask `a` and noise `e`. -/
def encBit (sk a : List Int) (e : Int) (b : Bool) : LWE :=
  { mask := a, body := (dot a sk + e + (if b then halfQ else 0)) % q }

/-- Modelled from the spec: decrypt one bit — compute the phase
`body - ⟨mask, sk⟩ (mod q)` and decide whether it is nearer to `⌊q/2⌋`
than to `0`. -/
def decBit (c : LWE) (sk : List Int) : Bool :=
  let phase := (c.body - dot c.mask sk) % q
  decide (quarterQ ≤ phase ∧ phase < quarterQ + halfQ)

/-- Modelled from the spec: `encryptInt`/`encInt` — bit-decompose the
two's-complement representation of `v` and encrypt each bit; `r i` gives
the mask and noise drawn for bit `i`. -/
def encInt (v : Int) (sk : List Int) (r : Nat → List Int × Int) : List LWE :=
  (List.range 32).map fun i =>
    encBit sk (r i).1 (r i).2 (((v % 2 ^ 32).toNat).testBit i)

/-- Little-endian reassembly of decrypted bits. -/
def fromBitsLE : List Bool → Nat
  | [] => 0
  | b :: rest => b.toNat + 2 * fromBitsLE rest

/-- Signed reading of an unsigned 32-bit value (two's complement). -/
def toSigned32 (n : Nat) : Int :=
  if n < 2 ^ 31 then (n : Int) else (n : Int) - 2 ^ 32

/-- Modelled from the spec: `decryptInt`/`decInt` — decrypt the 32 bit
samples and reassemble a signed 32-bit value (two's complement). -/
def decInt (cts : List LWE) (sk : List Int) : Int :=
  toSigned32 (fromBitsLE (cts.map fun c => decBit c sk))

/- ### Facts about the int32 coercion and the byte codec -/

theorem toInt32_lb (x : Int) : -2 ^ 31 ≤ toInt32 x := by
  unfold toInt32; omega

theorem toInt32_ub (x : Int) : toInt32 x < 2 ^ 31 := by
  unfold toInt32; omega

theorem toInt32_eq_self {x : Int} (h1 : -2 ^ 31 ≤ x) (h2 : x < 2 ^ 31) :
    toInt32 x = x := by
  unfold toInt32; omega

theorem toInt32_eq_self_iff (x : Int) :
    toInt32 x = x ↔ -2 ^ 31 ≤ x ∧ x < 2 ^ 31 := by
  unfold toInt32; omega

theorem toInt32_emod (x : Int) : toInt32 x % 2 ^ 32 = x % 2 ^ 32 := by
  unfold toInt32; omega

/-- Decoding the four bytes produced for `x` recovers `toInt32 x`. -/
theorem decode_int32ToBytesLE (x : Int) :
    ∃ b0 b1 b2 b3, int32ToBytesLE x = [b0, b1, b2, b3] ∧
      bytesToInt32LE b0 b1 b2 b3 = toInt32 x := by
  refine ⟨_, _, _, _, rfl, ?_⟩
  unfold bytesToInt32LE
  have hnn : (0 : Int) ≤ x % 2 ^ 32 := Int.emod_nonneg x (by norm_num)
  have hlt : x % 2 ^ 32 < 2 ^ 32 := Int.emod_lt_of_pos x (by norm_num)
  set n : Nat := (x % 2 ^ 32).toNat with hn
  have hcast : (n : Int) = x % 2 ^ 32 := Int.toNat_of_nonneg hnn
  have hnlt : n < 2 ^ 32 := by omega
  have hsum : (↑(n % 256) : Int) + 256 * ↑(n / 256 % 256) +
      65536 * ↑(n / 65536 % 256) + 16777216 * ↑(n / 16777216 % 256) = n := by
    push_cast
    omega
  rw [hsum]
  unfold toInt32
  omega

theorem int32ToBytesLE_length (x : Int) : (int32ToBytesLE x).length = 4 := rfl

/-- Every byte emitted by the codec is an actual byte value. -/
theorem int32ToBytesLE_lt (x : Int) : ∀ b ∈ int32ToBytesLE x, b < 256 := by
  unfold int32ToBytesLE
  simp only [List.mem_cons, List.not_mem_nil, or_false]
  rintro b (rfl | rfl | rfl | rfl) <;> omega

theorem serializeData_length (data : List Int) :
    (serializeData data).length = 4 * data.length := by
  induction data with
  | nil => rfl
  | cons x xs ih =>
      simp [serializeData, List.flatten_cons, int32ToBytesLE_length] at *
      omega

/-- Round trip on raw data: decoding the serialized buffer yields the
entries coerced through `ToInt32`. -/
theorem decodeInt32s_serializeData (data : List Int) :
    decodeInt32s (serializeData data) = data.map toInt32 := by
  induction data with
  | nil => rfl
  | cons x xs ih =>
      obtain ⟨b0, b1, b2, b3, henc, hdec⟩ := decode_int32ToBytesLE x
      simp only [serializeData, List.map_cons, List.flatten_cons, henc] at *
      simpa [decodeInt32s, hdec] using ih


/- ### Engine lemmas -/

/-- A single bit round-trips when the noise is below the decoding
threshold. -/
theorem decBit_encBit (sk a : List Int) (e : Int) (b : Bool)
    (hlb : -quarterQ < e) (hub : e < quarterQ) :
    decBit (encBit sk a e b) sk = b := by
  have key : ∀ d x : Int, ((d + x) % q - d) % q = x % q := by
    intro d x
    rw [Int.sub_emod, Int.emod_emod_of_dvd _ dvd_rfl, ← Int.sub_emod,
      add_sub_cancel_left]
  unfold decBit encBit
  simp only [add_assoc]
  rw [key]
  unfold quarterQ halfQ q at *
  cases b <;> simp <;> omega

theorem fromBitsLE_range_testBit (w n : Nat) :
    fromBitsLE ((List.range w).map n.testBit) = n % 2 ^ w := by
  induction w generalizing n with
  | zero => simp [fromBitsLE, Nat.mod_one]
  | succ w ih =>
      rw [List.range_succ_eq_map]
      simp only [List.map_cons, List.map_map]
      have hcomp : n.testBit ∘ Nat.succ = (n / 2).testBit := by
        funext i
        simp [Function.comp, Nat.testBit_succ]
      rw [hcomp]
      simp only [fromBitsLE, ih (n / 2)]
      have h0 : (n.testBit 0).toNat = n % 2 := by
        rcases Nat.mod_two_eq_zero_or_one n with h | h <;>
          simp [Nat.testBit_zero, h]
      rw [h0, pow_succ, Nat.mul_comm (2 ^ w) 2, Nat.mod_mul]

/-- C8: integer encoding round-trip — decrypting the encryption of any
`v` in the signed 32-bit range under the matching secret key yields `v`
exactly, for any per-bit masks, as long as each bit's noise is below the
decoding threshold (spec-modelled engine). -/
theorem decInt_encInt (v : Int) (sk : List Int) (r : Nat → List Int × Int)
    (hv1 : -2 ^ 31 ≤ v) (hv2 : v < 2 ^ 31)
    (hr : ∀ i, -quarterQ < (r i).2 ∧ (r i).2 < quarterQ) :
    decInt (encInt v sk r) sk = v := by
  have hnn : (0 : Int) ≤ v % 2 ^ 32 := Int.emod_nonneg _ (by norm_num)
  have hlt : v % 2 ^ 32 < 2 ^ 32 := Int.emod_lt_of_pos _ (by norm_num)
  set n : Nat := (v % 2 ^ 32).toNat with hn
  have hcast : (n : Int) = v % 2 ^ 32 := Int.toNat_of_nonneg hnn
  have hmap : (encInt v sk r).map (fun c => decBit c sk)
      = (List.range 32).map n.testBit := by
    unfold encInt
    rw [List.map_map]
    refine List.map_congr_left fun i _ => ?_
    exact decBit_encBit sk (r i).1 (r i).2 (n.testBit i) (hr i).1 (hr i).2
  unfold decInt
  rw [hmap, fromBitsLE_range_testBit]
  have hn32 : n < 2 ^ 32 := by omega
  rw [Nat.mod_eq_of_lt hn32]
  unfold toSigned32
  by_cases hc : n < 2 ^ 31
  · rw [if_pos hc]; omega
  · rw [if_neg hc]; omega

/- ### Codec helper lemmas -/

theorem validateCiphertext_iff (ct : Ciphertext) :
    validateCiphertext ct = true ↔
      ct.encrypted_data.length = 33296 ∧ ct.scheme = "FHE16_0.0.1v" ∧
        ct.timestamp ≠ 0 := by
  simp [validateCiphertext, and_assoc]

theorem serializeCiphertext_ok {ct : Ciphertext}
    (hv : validateCiphertext ct = true) :
    serializeCiphertext ct = Except.ok (serializeData ct.encrypted_data) := by
  simp [serializeCiphertext, hv]

/-- Deserializing the serialized buffer of a valid ciphertext succeeds and
returns the entries coerced through `ToInt32`, a fixed scheme tag and the
current time. -/
theorem deserialize_serializeData {ct : Ciphertext} (now : Int)
    (hv : validateCiphertext ct = true) :
    deserializeCiphertext (some (serializeData ct.encrypted_data)) now
      = Except.ok { encrypted_data := ct.encrypted_data.map toInt32
                    scheme := "FHE16_0.0.1v"
                    timestamp := now } := by
  have hlen := serializeData_length ct.encrypted_data
  have h33 := ((validateCiphertext_iff ct).mp hv).1
  simp only [deserializeCiphertext]
  rw [if_neg (by omega), decodeInt32s_serializeData]

theorem decodeInt32s_length : ∀ bs : List Nat,
    (decodeInt32s bs).length = bs.length / 4
  | [] => rfl
  | [_] => by simp [decodeInt32s]
  | [_, _] => by simp [decodeInt32s]
  | [_, _, _] => by simp [decodeInt32s]
  | _ :: _ :: _ :: _ :: rest => by
      simp only [decodeInt32s, List.length_cons, decodeInt32s_length rest]
      omega

theorem map_toInt32_eq_self_iff (l : List Int) :
    l.map toInt32 = l ↔ ∀ x ∈ l, -2 ^ 31 ≤ x ∧ x < 2 ^ 31 := by
  induction l with
  | nil => simp
  | cons x xs ih =>
      simp only [List.map_cons, List.cons.injEq, List.mem_cons]
      constructor
      · rintro ⟨h1, h2⟩ y hy
        rcases hy with rfl | hy
        · exact (toInt32_eq_self_iff y).mp h1
        · exact (ih.mp h2) y hy
      · intro h
        exact ⟨(toInt32_eq_self_iff x).mpr (h x (Or.inl rfl)),
          ih.mpr fun y hy => h y (Or.inr hy)⟩

/- ### Concrete well-formed instances -/

theorem validate_createZeroCiphertext {now : Int} (h : now ≠ 0) :
    validateCiphertext (createZeroCiphertext now) = true :=
  (validateCiphertext_iff _).mpr ⟨List.length_replicate 33296 0, rfl, h⟩

theorem overflowCt_length : overflowCt.encrypted_data.length = 33296 := by
  rw [show overflowCt.encrypted_data
      = (2 ^ 31 : Int) :: List.replicate 33295 0 from rfl,
    List.length_cons, List.length_replicate]

theorem validate_overflowCt : validateCiphertext overflowCt = true :=
  (validateCiphertext_iff _).mpr ⟨overflowCt_length, rfl, one_ne_zero⟩

theorem toInt32_zero : toInt32 0 = 0 := by unfold toInt32; norm_num

theorem toInt32_pow31 : toInt32 (2 ^ 31) = -2 ^ 31 := by
  unfold toInt32; norm_num

theorem overflowCt_map : overflowCt.encrypted_data.map toInt32
    = (-2 ^ 31 : Int) :: List.replicate 33295 0 := by
  rw [show overflowCt.encrypted_data
      = (2 ^ 31 : Int) :: List.replicate 33295 0 from rfl,
    List.map_cons, List.map_replicate, toInt32_zero, toInt32_pow31]

/- ### Claim theorems -/

/-- C1 (counterexample): the round trip is not the identity on every
ciphertext accepted by `validateCiphertext` — `overflowCt` is accepted,
yet deserializing its serialization wraps the first entry `2^31` to
`-2^31`, so the resulting `encrypted_data` differs from the original. -/
theorem serialization_roundtrip_counterexample :
    validateCiphertext overflowCt = true ∧
    serializeCiphertext overflowCt
      = Except.ok (serializeData overflowCt.encrypted_data) ∧
    deserializeCiphertext (some (serializeData overflowCt.encrypted_data)) 1
      = Except.ok { encrypted_data := (-2 ^ 31 : Int) :: List.replicate 33295 0
                    scheme := "FHE16_0.0.1v"
                    timestamp := 1 } ∧
    ((-2 ^ 31 : Int) :: List.replicate 33295 0) ≠ overflowCt.encrypted_data := by
  refine ⟨validate_overflowCt, serializeCiphertext_ok validate_overflowCt,
    ?_, ?_⟩
  · rw [deserialize_serializeData 1 validate_overflowCt, overflowCt_map]
  · intro hEq
    rw [show overflowCt.encrypted_data
        = (2 ^ 31 : Int) :: List.replicate 33295 0 from rfl] at hEq
    injection hEq with h1 _
    norm_num at h1

/-- C1 (amended): for every ciphertext accepted by `validateCiphertext`
all of whose entries already lie in the signed 32-bit range,
`deserializeCiphertext (serializeCiphertext c)` reproduces
`encrypted_data` element for element (the scheme tag is restored and the
timestamp is freshly stamped). -/
theorem serialization_roundtrip (ct : Ciphertext) (now : Int)
    (hv : validateCiphertext ct = true)
    (hrange : ∀ x ∈ ct.encrypted_data, -2 ^ 31 ≤ x ∧ x < 2 ^ 31) :
    ∃ bytes, serializeCiphertext ct = Except.ok bytes ∧
      ∃ ct', deserializeCiphertext (some bytes) now = Except.ok ct' ∧
        ct'.encrypted_data = ct.encrypted_data ∧
        ct'.scheme = "FHE16_0.0.1v" ∧ ct'.timestamp = now := by
  refine ⟨_, serializeCiphertext_ok hv, _, deserialize_serializeData now hv,
    ?_, rfl, rfl⟩
  exact (map_toInt32_eq_self_iff ct.encrypted_data).mpr hrange

/-- C1 witness: the round-trip theorem applied to the all-zero
ciphertext. -/
theorem serialization_roundtrip_witness :
    ∃ bytes, serializeCiphertext (createZeroCiphertext 1) = Except.ok bytes ∧
      ∃ ct', deserializeCiphertext (some bytes) 7 = Except.ok ct' ∧
        ct'.encrypted_data = (createZeroCiphertext 1).encrypted_data ∧
        ct'.scheme = "FHE16_0.0.1v" ∧ ct'.timestamp = 7 :=
  serialization_roundtrip (createZeroCiphertext 1) 7
    (validate_createZeroCiphertext one_ne_zero)
    (fun x hx => by
      have hx0 := List.eq_of_mem_replicate hx
      subst hx0
      exact ⟨by norm_num, by norm_num⟩)

/-- C10: serialization coerces every entry through `ToInt32` (reduction
mod `2^32` into the signed range), the round trip reproduces
`encrypted_data` exactly when and only when every entry is already a
signed 32-bit integer, and `validateCiphertext` imposes no entry-range
check, so out-of-range entries serialize without error and come back
wrapped. -/
theorem int32_coercion_on_serialization (ct : Ciphertext) (now : Int)
    (hv : validateCiphertext ct = true) :
    ∃ bytes ct', serializeCiphertext ct = Except.ok bytes ∧
      deserializeCiphertext (some bytes) now = Except.ok ct' ∧
      ct'.encrypted_data = ct.encrypted_data.map toInt32 ∧
      (ct'.encrypted_data = ct.encrypted_data ↔
        ∀ x ∈ ct.encrypted_data, -2 ^ 31 ≤ x ∧ x < 2 ^ 31) ∧
      ∀ x : Int, -2 ^ 31 ≤ toInt32 x ∧ toInt32 x < 2 ^ 31 ∧
        toInt32 x % 2 ^ 32 = x % 2 ^ 32 :=
  ⟨_, _, serializeCiphertext_ok hv, deserialize_serializeData now hv,
    rfl, map_toInt32_eq_self_iff ct.encrypted_data,
    fun x => ⟨toInt32_lb x, toInt32_ub x, toInt32_emod x⟩⟩

/-- C10 witness: the coercion theorem applied to `overflowCt`, whose head
entry `2^31` is outside the signed 32-bit range. -/
theorem int32_coercion_on_serialization_witness :
    ∃ bytes ct', serializeCiphertext overflowCt = Except.ok bytes ∧
      deserializeCiphertext (some bytes) 1 = Except.ok ct' ∧
      ct'.encrypted_data = overflowCt.encrypted_data.map toInt32 ∧
      (ct'.encrypted_data = overflowCt.encrypted_data ↔
        ∀ x ∈ overflowCt.encrypted_data, -2 ^ 31 ≤ x ∧ x < 2 ^ 31) ∧
      ∀ x : Int, -2 ^ 31 ≤ toInt32 x ∧ toInt32 x < 2 ^ 31 ∧
        toInt32 x % 2 ^ 32 = x % 2 ^ 32 :=
  int32_coercion_on_serialization overflowCt 1 validate_overflowCt

/-- C3: `deserializeCiphertext` fails with the malformed-buffer error on
a missing buffer and on every buffer whose byte length is not
`33296 * 4 = 133184`, and succeeds on every buffer of exactly that
length. -/
theorem deserialize_length_check (now : Int) :
    deserializeCiphertext none now
      = Except.error "Invalid buffer size for FHE16 ciphertext" ∧
    ∀ bs : List Nat,
      (bs.length ≠ 33296 * 4 →
        deserializeCiphertext (some bs) now
          = Except.error "Invalid buffer size for FHE16 ciphertext") ∧
      (bs.length = 33296 * 4 →
        ∃ ct, deserializeCiphertext (some bs) now = Except.ok ct) := by
  refine ⟨rfl, fun bs => ⟨fun h => ?_, fun h => ?_⟩⟩
  · simp only [deserializeCiphertext]
    rw [if_pos h]
  · refine ⟨{ encrypted_data := decodeInt32s bs
              scheme := "FHE16_0.0.1v"
              timestamp := now }, ?_⟩
    simp only [deserializeCiphertext]
    rw [if_neg (by omega)]

/-- C3 witness: the length check at a missing buffer, a 1-byte buffer and
an exactly-133184-byte buffer. -/
theorem deserialize_length_check_witness :
    deserializeCiphertext none 1
      = Except.error "Invalid buffer size for FHE16 ciphertext" ∧
    deserializeCiphertext (some [0]) 1
      = Except.error "Invalid buffer size for FHE16 ciphertext" ∧
    ∃ ct, deserializeCiphertext (some (List.replicate (33296 * 4) 0)) 1
      = Except.ok ct :=
  ⟨(deserialize_length_check 1).1,
   ((deserialize_length_check 1).2 [0]).1 (by decide),
   ((deserialize_length_check 1).2 _).2 (List.length_replicate (33296 * 4) 0)⟩

/-- C2 (counterexample): subtraction exposed by the core is not
negation-then-add — `FHE16.sub` dispatches to the native `FHE16_SUB`
symbol, a call distinct from `FHE16_NEG` followed by `FHE16_ADD`, already
on the first two input ciphertexts. -/
theorem sub_is_not_neg_add_counterexample :
    fheSub (CtExpr.input 0) (CtExpr.input 1)
      ≠ fheAdd (CtExpr.input 0) (fheNeg (CtExpr.input 1)) := by
  decide

/-- C2 (amended): the dynamic-withdraw path of the executor computes
subtraction as `add(a, neg(b))` and performs no native `FHE16_SUB` call,
but negation-then-add is not the only subtraction path: `FHE16.sub` binds
`FHE16_SUB` directly and the executor's `'sub'` case invokes it. -/
theorem sub_paths :
    usesSubNode (dynamicWithdraw (CtExpr.input 0) (CtExpr.input 1)) = false ∧
    dynamicWithdraw (CtExpr.input 0) (CtExpr.input 1)
      = CtExpr.select (CtExpr.ge (CtExpr.input 0) (CtExpr.input 1))
          (CtExpr.add (CtExpr.input 0) (CtExpr.neg (CtExpr.input 1)))
          (CtExpr.input 0) ∧
    ∀ a b : CtExpr, stepSub a b = CtExpr.sub a b :=
  ⟨rfl, rfl, fun _ _ => rfl⟩

/-- C4: before the global bootstrap table is loaded, `smull` fails with
`NotInitialized` on every pair of ciphertexts, and after any
`loadBootParam` call it instead performs the native multiplication. -/
theorem smull_before_load_not_initialized :
    (∀ a b : CtExpr,
      smullOp initialEngineState a b = Except.error FheError.notInitialized) ∧
    ∀ (st : EngineState) (a b : CtExpr),
      smullOp (loadBootParam st) a b = Except.ok (CtExpr.smull a b) :=
  ⟨fun _ _ => rfl, fun _ _ _ => rfl⟩

/-- C5: the CID is a deterministic function of the serialized ciphertext
bytes alone — two ciphertext objects with element-wise equal
`encrypted_data` get the identical CID regardless of their `scheme` and
`timestamp` fields, and on a validated ciphertext the hashed bytes are
exactly the output of `serializeCiphertext`, `0x`-prefixed. -/
theorem generateCID_deterministic (h : List Nat → List Nat)
    (a b : Ciphertext) (heq : a.encrypted_data = b.encrypted_data) :
    generateCIDWith h a = generateCIDWith h b ∧
    ∀ bytes, serializeCiphertext a = Except.ok bytes →
      generateCIDWith h a = "0x" ++ hexOfBytes (h bytes) := by
  constructor
  · unfold generateCIDWith
    rw [heq]
  · intro bytes hb
    unfold serializeCiphertext at hb
    split at hb
    · cases hb
      rfl
    · cases hb

/-- C5 witness: two ciphertexts sharing `encrypted_data` but differing in
scheme and timestamp receive the same CID under the identity hash. -/
theorem generateCID_deterministic_witness :
    generateCIDWith id { encrypted_data := [5], scheme := "x", timestamp := 3 }
      = generateCIDWith id
          { encrypted_data := [5], scheme := "FHE16_0.0.1v", timestamp := 9 } :=
  (generateCID_deterministic id
    { encrypted_data := [5], scheme := "x", timestamp := 3 }
    { encrypted_data := [5], scheme := "FHE16_0.0.1v", timestamp := 9 } rfl).1

/-- C6: every ciphertext accepted by `validateCiphertext` serializes to a
buffer of exactly `133184` bytes, which is within the contract's
`200000`-byte cap, so `registerCiphertext` accepts it under any fresh
nonzero CID. -/
theorem serialized_size_bounded (ct : Ciphertext)
    (hv : validateCiphertext ct = true) :
    ∃ bytes, serializeCiphertext ct = Except.ok bytes ∧
      bytes.length = 133184 ∧ bytes.length ≤ maxCiphertextBytes ∧
      ∀ (st : CERC20State) (cid : Nat), cid ≠ 0 → cid ∉ st.registered →
        registerCiphertext st cid bytes
          = Except.ok { registered := cid :: st.registered } := by
  have h33 := ((validateCiphertext_iff ct).mp hv).1
  have hlen : (serializeData ct.encrypted_data).length = 133184 := by
    rw [serializeData_length, h33]
  refine ⟨_, serializeCiphertext_ok hv, hlen, by
    unfold maxCiphertextBytes
    omega, ?_⟩
  intro st cid hcid hmem
  unfold registerCiphertext
  rw [if_neg hcid, if_neg hmem, if_neg (by omega), if_neg (by
    unfold maxCiphertextBytes
    omega)]

/-- C6 witness: the size bound applied to the all-zero ciphertext,
registered under CID 1 in the empty contract state. -/
theorem serialized_size_bounded_witness :
    ∃ bytes, serializeCiphertext (createZeroCiphertext 1) = Except.ok bytes ∧
      bytes.length = 133184 ∧ bytes.length ≤ maxCiphertextBytes ∧
      ∀ (st : CERC20State) (cid : Nat), cid ≠ 0 → cid ∉ st.registered →
        registerCiphertext st cid bytes
          = Except.ok { registered := cid :: st.registered } :=
  serialized_size_bounded (createZeroCiphertext 1)
    (validate_createZeroCiphertext one_ne_zero)

/-- C7: `validateCiphertext` accepts only objects whose `encrypted_data`
has length exactly `N_total = 33296`, scheme `FHE16_0.0.1v` and nonzero
numeric timestamp, and `convertJSONToInt32Ptr` rejects a missing array
and every array whose length differs from `33296`. -/
theorem ciphertext_length_invariant :
    (∀ ct : Ciphertext, validateCiphertext ct = true →
      ct.encrypted_data.length = N_total ∧ ct.scheme = "FHE16_0.0.1v" ∧
        ct.timestamp ≠ 0) ∧
    (∀ arr : List Int, arr.length ≠ 33296 →
      ∃ e, convertJSONToInt32Ptr (some arr) = Except.error e) ∧
    (∃ e, convertJSONToInt32Ptr none = Except.error e) := by
  refine ⟨fun ct hv => (validateCiphertext_iff ct).mp hv,
    fun arr h => ?_, ⟨_, rfl⟩⟩
  refine ⟨"Invalid ciphertext length: expected 33296, got "
    ++ toString arr.length, ?_⟩
  simp only [convertJSONToInt32Ptr]
  rw [if_pos h]

/-- C7 witness: the invariant applied to the all-zero ciphertext, and the
rejection of the empty array. -/
theorem ciphertext_length_invariant_witness :
    (createZeroCiphertext 1).encrypted_data.length = N_total ∧
    ∃ e, convertJSONToInt32Ptr (some []) = Except.error e :=
  ⟨(ciphertext_length_invariant.1 (createZeroCiphertext 1)
      (validate_createZeroCiphertext one_ne_zero)).1,
   ciphertext_length_invariant.2.1 [] (by decide)⟩

/-- C9: every ciphertext produced by `deserializeCiphertext` or
`createZeroCiphertext` satisfies `validateCiphertext` (given that
`Date.now()` is nonzero) and is therefore accepted back by
`serializeCiphertext`. -/
theorem constructors_validate (now : Int) (hnow : now ≠ 0) :
    (validateCiphertext (createZeroCiphertext now) = true ∧
      ∃ bytes, serializeCiphertext (createZeroCiphertext now)
        = Except.ok bytes) ∧
    ∀ (bs : List Nat) (ct' : Ciphertext),
      deserializeCiphertext (some bs) now = Except.ok ct' →
        validateCiphertext ct' = true ∧
        ∃ bytes, serializeCiphertext ct' = Except.ok bytes := by
  refine ⟨⟨validate_createZeroCiphertext hnow,
    _, serializeCiphertext_ok (validate_createZeroCiphertext hnow)⟩, ?_⟩
  intro bs ct' hd
  simp only [deserializeCiphertext] at hd
  split at hd
  · cases hd
  · rename_i hlen
    cases hd
    have hv : validateCiphertext
        { encrypted_data := decodeInt32s bs
          scheme := "FHE16_0.0.1v"
          timestamp := now } = true := by
      refine (validateCiphertext_iff _).mpr ⟨?_, rfl, hnow⟩
      show (decodeInt32s bs).length = 33296
      rw [decodeInt32s_length]
      omega
    exact ⟨hv, _, serializeCiphertext_ok hv⟩

/-- C9 witness: the closure theorem applied at `now = 1`, plus the
deserialization branch applied to the all-zero 133184-byte buffer. -/
theorem constructors_validate_witness :
    validateCiphertext (createZeroCiphertext 1) = true ∧
    ∀ ct' : Ciphertext,
      deserializeCiphertext (some (List.replicate (33296 * 4) 0)) 1
        = Except.ok ct' → validateCiphertext ct' = true :=
  ⟨(constructors_validate 1 one_ne_zero).1.1,
   fun ct' h => ((constructors_validate 1 one_ne_zero).2 _ ct' h).1⟩

/-- C8 witness: the engine round trip evaluated at `v = 123` (the value
used by the repository's self-test) with a small key and zero noise. -/
theorem decInt_encInt_witness :
    decInt (encInt 123 [1, -1, 0] (fun _ => ([], 0))) [1, -1, 0] = 123 :=
  decInt_encInt 123 [1, -1, 0] (fun _ => ([], 0)) (by norm_num) (by norm_num)
    (fun _ => ⟨by norm_num [quarterQ, q], by norm_num [quarterQ, q]⟩)

end LatticA
